import Mathlib

/-!
Verification of the localsearch-mcp hybrid search server against its
natural-language specification.

The Python sources under `src/` are embedded shallowly:
pure functions become Lean functions over `Nat`/`Int`/`Rat` and `String`;
the stateful cleaning loop of `ContentCleaner.clean_chunks` becomes an
explicit recursion threading the `seen_hashes` / `seen_contents` state;
Python dicts (which preserve insertion order) become association lists with
order-preserving update; float arithmetic of the scoring heuristics is
modelled with exact rationals; library capabilities that are external to the
repository (the MD5 digest, difflib's `SequenceMatcher.ratio`, the BM25
structure and the Chroma vector store) enter as explicit parameters or as
small state machines recording exactly the calls the repository makes.
-/

namespace LocalSearch

/-! ## Content cleaner (`src/content_cleaner.py`) -/

/-- A chunk as consumed by `ContentCleaner.clean_chunks`: the cleaner only
reads `page_content`; the `meta` field stands for the rest of the
`langchain` `Document` object, letting distinct chunk objects carry equal
text. -/
structure Chunk where
  pageContent : String
  meta : Nat := 0
deriving DecidableEq, Repr

/-- `CleaningStats` from `content_cleaner.py` lines 13-28. -/
structure CleaningStats where
  total_input : Nat
  exact_duplicates_removed : Nat
  near_duplicates_removed : Nat
  boilerplate_removed : Nat
  too_small_removed : Nat
  total_output : Nat
deriving DecidableEq, Repr

/-- `ContentCleaner.MIN_CHUNK_SIZE` (line 37). -/
def MIN_CHUNK_SIZE : Nat := 100

/-- `ContentCleaner.NEAR_DUPLICATE_THRESHOLD` (line 38), as an exact rational. -/
def NEAR_DUPLICATE_THRESHOLD : ℚ := 95 / 100

/-- `ContentCleaner.BOILERPLATE_MIN_OCCURRENCES` (line 39). -/
def BOILERPLATE_MIN_OCCURRENCES : Nat := 3

/-- Python's `pattern in line` substring test. -/
def substrOf (pat line : String) : Bool :=
  decide (pat.toList <:+: line.toList)

/-- The trimmed lines of a chunk that are longer than 20 characters: the
candidate boilerplate lines collected by `_detect_boilerplate_patterns`
(lines 146-152). -/
def candidateLines (c : Chunk) : List String :=
  ((c.pageContent.splitOn "\n").map String.trim).filter (fun l => 20 < l.length)

/-- All candidate lines across the input chunks, in order. -/
def allCandidateLines (chunks : List Chunk) : List String :=
  (chunks.map candidateLines).flatten

/-- `ContentCleaner._detect_boilerplate_patterns` (lines 138-160): the
trimmed lines longer than 20 characters that occur at least
`BOILERPLATE_MIN_OCCURRENCES` times across the input chunks.  The Python
dict keeps first-insertion order; only membership in the resulting list is
ever used downstream (`any` in `_is_boilerplate`). -/
def detect_boilerplate_patterns (chunks : List Chunk) : List String :=
  (allCandidateLines chunks).dedup.filter
    (fun l => BOILERPLATE_MIN_OCCURRENCES ≤ (allCandidateLines chunks).count l)

/-- `ContentCleaner._is_boilerplate` (lines 162-180): true when more than
80% of the chunk's non-empty trimmed lines contain some boilerplate
pattern; `boilerplate_lines / len(lines) > 0.8` is the exact integer
comparison `4 * len(lines) < 5 * boilerplate_lines`. -/
def is_boilerplate (patterns : List String) (content : String) : Bool :=
  if patterns.isEmpty then false
  else
    let lines := ((content.splitOn "\n").map String.trim).filter (fun l => !(l == ""))
    if lines.isEmpty then false
    else
      let bl := lines.countP (fun line => patterns.any (fun p => substrOf p line))
      4 * lines.length < 5 * bl

/-- `ContentCleaner._is_near_duplicate` (lines 121-136), parameterised by
the similarity function `sim` standing for difflib's
`SequenceMatcher(None, content, seen).ratio()` (a library capability
external to the repository).  Compares only against
`seen_contents[-min(100, len):]` and uses the inclusive test
`similarity >= NEAR_DUPLICATE_THRESHOLD`. -/
def is_near_duplicate (sim : String → String → ℚ) (content : String)
    (seen : List String) : Bool :=
  let check_limit := min 100 seen.length
  let recent := seen.drop (seen.length - check_limit)
  recent.any (fun s => NEAR_DUPLICATE_THRESHOLD ≤ sim content s)

/-- Counts of chunks removed by each rule during one `clean_chunks` run. -/
structure RemovalCounts where
  tooSmall : Nat
  exactDup : Nat
  nearDup : Nat
  boiler : Nat
deriving DecidableEq, Repr

/-- The per-chunk filtering loop of `ContentCleaner.clean_chunks`
(lines 80-112), threading the `seen_hashes` (`hs`) and `seen_contents`
(`cs`) state; `hash` stands for `_hash_content` (the MD5 hex digest,
external library code).  Branches in the source's order: empty after strip,
shorter than `MIN_CHUNK_SIZE`, exact duplicate, near duplicate,
boilerplate; surviving chunks are appended and their hash/content
recorded. -/
def clean_loop (sim : String → String → ℚ) (hash : String → String)
    (detect : Bool) (patterns : List String) :
    List Chunk → List String → List String → List Chunk × RemovalCounts
  | [], _, _ => ([], ⟨0, 0, 0, 0⟩)
  | c :: rest, hs, cs =>
    let content := c.pageContent.trim
    if content = "" then
      let r := clean_loop sim hash detect patterns rest hs cs
      (r.1, { r.2 with tooSmall := r.2.tooSmall + 1 })
    else if content.length < MIN_CHUNK_SIZE then
      let r := clean_loop sim hash detect patterns rest hs cs
      (r.1, { r.2 with tooSmall := r.2.tooSmall + 1 })
    else if hs.contains (hash content) then
      let r := clean_loop sim hash detect patterns rest hs cs
      (r.1, { r.2 with exactDup := r.2.exactDup + 1 })
    else if is_near_duplicate sim content cs then
      let r := clean_loop sim hash detect patterns rest hs cs
      (r.1, { r.2 with nearDup := r.2.nearDup + 1 })
    else if detect && is_boilerplate patterns content then
      let r := clean_loop sim hash detect patterns rest hs cs
      (r.1, { r.2 with boiler := r.2.boiler + 1 })
    else
      let r := clean_loop sim hash detect patterns rest
        (hs ++ [hash content]) (cs ++ [content])
      (c :: r.1, r.2)

/-- `ContentCleaner.clean_chunks` (lines 46-115) on a fresh cleaner: state
is reset at the start of each call, boilerplate patterns are detected from
the input when `detect` is set (otherwise the fresh instance's empty
pattern list is in force), and the stats are assembled from the loop's
removal counts. -/
def clean_chunks (sim : String → String → ℚ) (hash : String → String)
    (chunks : List Chunk) (detect : Bool) : List Chunk × CleaningStats :=
  let patterns := if detect then detect_boilerplate_patterns chunks else []
  let r := clean_loop sim hash detect patterns chunks [] []
  (r.1,
    { total_input := chunks.length
      exact_duplicates_removed := r.2.exactDup
      near_duplicates_removed := r.2.nearDup
      boilerplate_removed := r.2.boiler
      too_small_removed := r.2.tooSmall
      total_output := r.1.length })

/-! ### Lemmas about the cleaning loop -/

lemma clean_loop_tooSmall (sim : String → String → ℚ) (hash : String → String)
    (detect : Bool) (patterns : List String) :
    ∀ (l : List Chunk) (hs cs : List String),
      (clean_loop sim hash detect patterns l hs cs).2.tooSmall
        = l.countP (fun c => decide (c.pageContent.trim.length < MIN_CHUNK_SIZE)) := by
  intro l
  induction l with
  | nil => intro hs cs; simp [clean_loop]
  | cons c rest ih =>
    intro hs cs
    by_cases h1 : c.pageContent.trim = ""
    · have hlen : 0 < MIN_CHUNK_SIZE := by norm_num [MIN_CHUNK_SIZE]
      simp [clean_loop, h1, hlen, List.countP_cons, ih]
    · by_cases h2 : c.pageContent.trim.length < MIN_CHUNK_SIZE
      · simp [clean_loop, h1, h2, List.countP_cons, ih]
      · by_cases h3 : hash c.pageContent.trim ∈ hs
        · simp [clean_loop, h1, h2, h3, List.countP_cons, ih]
        · by_cases h4 : is_near_duplicate sim c.pageContent.trim cs = true
          · simp [clean_loop, h1, h2, h3, h4, List.countP_cons, ih]
          · by_cases h5 : detect = true ∧ is_boilerplate patterns c.pageContent.trim = true
            · obtain ⟨hd, hb⟩ := h5
              subst hd
              simp [clean_loop, h1, h2, h3, h4, hb, List.countP_cons, ih]
            · simp [clean_loop, h1, h2, h3, h4, h5, List.countP_cons, ih]

lemma clean_loop_output_large (sim : String → String → ℚ) (hash : String → String)
    (detect : Bool) (patterns : List String) :
    ∀ (l : List Chunk) (hs cs : List String),
      ∀ c ∈ (clean_loop sim hash detect patterns l hs cs).1,
        MIN_CHUNK_SIZE ≤ c.pageContent.trim.length := by
  intro l
  induction l with
  | nil => intro hs cs c hc; simp [clean_loop] at hc
  | cons a rest ih =>
    intro hs cs c hc
    by_cases h1 : a.pageContent.trim = ""
    · simp only [clean_loop, if_pos h1] at hc
      exact ih hs cs c hc
    · by_cases h2 : a.pageContent.trim.length < MIN_CHUNK_SIZE
      · simp only [clean_loop, if_neg h1, if_pos h2] at hc
        exact ih hs cs c hc
      · by_cases h3 : hs.contains (hash a.pageContent.trim) = true
        · simp only [clean_loop, if_neg h1, if_neg h2, if_pos h3] at hc
          exact ih hs cs c hc
        · by_cases h4 : is_near_duplicate sim a.pageContent.trim cs = true
          · simp only [clean_loop, if_neg h1, if_neg h2, if_neg h3, if_pos h4] at hc
            exact ih hs cs c hc
          · by_cases h5 : (detect && is_boilerplate patterns a.pageContent.trim) = true
            · simp only [clean_loop, if_neg h1, if_neg h2, if_neg h3, if_neg h4,
                if_pos h5] at hc
              exact ih hs cs c hc
            · simp only [clean_loop, if_neg h1, if_neg h2, if_neg h3, if_neg h4,
                if_neg h5, List.mem_cons] at hc
              rcases hc with rfl | hc
              · omega
              · exact ih _ _ c hc

lemma clean_loop_sublist (sim : String → String → ℚ) (hash : String → String)
    (detect : Bool) (patterns : List String) :
    ∀ (l : List Chunk) (hs cs : List String),
      List.Sublist (clean_loop sim hash detect patterns l hs cs).1 l := by
  intro l
  induction l with
  | nil => intro hs cs; simp [clean_loop]
  | cons a rest ih =>
    intro hs cs
    by_cases h1 : a.pageContent.trim = ""
    · simp only [clean_loop, if_pos h1]
      exact (ih hs cs).trans (List.sublist_cons_self a rest)
    · by_cases h2 : a.pageContent.trim.length < MIN_CHUNK_SIZE
      · simp only [clean_loop, if_neg h1, if_pos h2]
        exact (ih hs cs).trans (List.sublist_cons_self a rest)
      · by_cases h3 : hs.contains (hash a.pageContent.trim) = true
        · simp only [clean_loop, if_neg h1, if_neg h2, if_pos h3]
          exact (ih hs cs).trans (List.sublist_cons_self a rest)
        · by_cases h4 : is_near_duplicate sim a.pageContent.trim cs = true
          · simp only [clean_loop, if_neg h1, if_neg h2, if_neg h3, if_pos h4]
            exact (ih hs cs).trans (List.sublist_cons_self a rest)
          · by_cases h5 : (detect && is_boilerplate patterns a.pageContent.trim) = true
            · simp only [clean_loop, if_neg h1, if_neg h2, if_neg h3, if_neg h4, if_pos h5]
              exact (ih hs cs).trans (List.sublist_cons_self a rest)
            · simp only [clean_loop, if_neg h1, if_neg h2, if_neg h3, if_neg h4, if_neg h5]
              exact (ih _ _).cons₂ a

lemma clean_loop_conservation (sim : String → String → ℚ) (hash : String → String)
    (detect : Bool) (patterns : List String) :
    ∀ (l : List Chunk) (hs cs : List String),
      l.length = (clean_loop sim hash detect patterns l hs cs).1.length
        + ((clean_loop sim hash detect patterns l hs cs).2.tooSmall
          + (clean_loop sim hash detect patterns l hs cs).2.exactDup
          + (clean_loop sim hash detect patterns l hs cs).2.nearDup
          + (clean_loop sim hash detect patterns l hs cs).2.boiler) := by
  intro l
  induction l with
  | nil => intro hs cs; simp [clean_loop]
  | cons a rest ih =>
    intro hs cs
    by_cases h1 : a.pageContent.trim = ""
    · have := ih hs cs
      simp only [clean_loop, if_pos h1, List.length_cons]
      omega
    · by_cases h2 : a.pageContent.trim.length < MIN_CHUNK_SIZE
      · have := ih hs cs
        simp only [clean_loop, if_neg h1, if_pos h2, List.length_cons]
        omega
      · by_cases h3 : hs.contains (hash a.pageContent.trim) = true
        · have := ih hs cs
          simp only [clean_loop, if_neg h1, if_neg h2, if_pos h3, List.length_cons]
          omega
        · by_cases h4 : is_near_duplicate sim a.pageContent.trim cs = true
          · have := ih hs cs
            simp only [clean_loop, if_neg h1, if_neg h2, if_neg h3, if_pos h4,
              List.length_cons]
            omega
          · by_cases h5 : (detect && is_boilerplate patterns a.pageContent.trim) = true
            · have := ih hs cs
              simp only [clean_loop, if_neg h1, if_neg h2, if_neg h3, if_neg h4, if_pos h5,
                List.length_cons]
              omega
            · have := ih (hs ++ [hash a.pageContent.trim]) (cs ++ [a.pageContent.trim])
              simp only [clean_loop, if_neg h1, if_neg h2, if_neg h3, if_neg h4, if_neg h5,
                List.length_cons]
              omega

/-! ### Claim theorems for the cleaner size filter and its ledger -/

/-- C3: on every input list (and for every similarity and hash capability),
the "too small" counter counts exactly the chunks whose trimmed content is
shorter than 100 characters — so a chunk of exactly 100 trimmed characters
is never excluded as too small, while every chunk of at most 99 trimmed
characters (including chunks empty after trimming) is so excluded; and
every chunk the cleaner retains has at least 100 trimmed characters. -/
theorem clean_chunks_min_size_boundary (sim : String → String → ℚ)
    (hash : String → String) (chunks : List Chunk) (detect : Bool) :
    (clean_chunks sim hash chunks detect).2.too_small_removed
        = chunks.countP (fun c => decide (c.pageContent.trim.length < 100))
      ∧ ∀ c ∈ (clean_chunks sim hash chunks detect).1,
          100 ≤ c.pageContent.trim.length := by
  constructor
  · simpa [MIN_CHUNK_SIZE] using clean_loop_tooSmall sim hash detect
      (if detect then detect_boilerplate_patterns chunks else []) chunks [] []
  · intro c hc
    simpa [MIN_CHUNK_SIZE] using clean_loop_output_large sim hash detect
      (if detect then detect_boilerplate_patterns chunks else []) chunks [] [] c hc

/-- C10: for every `clean_chunks` call, the stats satisfy the conservation
invariant `total_input = total_output + too_small + exact_dup + near_dup +
boilerplate` (each input chunk is counted exactly once, either as output or
under exactly one exclusion reason), and the cleaned list is a subsequence
of the input list. -/
theorem clean_chunks_conservation (sim : String → String → ℚ)
    (hash : String → String) (chunks : List Chunk) (detect : Bool) :
    (clean_chunks sim hash chunks detect).2.total_input
        = (clean_chunks sim hash chunks detect).2.total_output
          + (clean_chunks sim hash chunks detect).2.too_small_removed
          + (clean_chunks sim hash chunks detect).2.exact_duplicates_removed
          + (clean_chunks sim hash chunks detect).2.near_duplicates_removed
          + (clean_chunks sim hash chunks detect).2.boilerplate_removed
    ∧ List.Sublist (clean_chunks sim hash chunks detect).1 chunks := by
  constructor
  · have := clean_loop_conservation sim hash detect
      (if detect then detect_boilerplate_patterns chunks else []) chunks [] []
    simp only [clean_chunks]
    omega
  · exact clean_loop_sublist sim hash detect _ chunks [] []

/-- C4: the near-duplicate test fires exactly when the similarity of the
candidate content against some element of the most recent 100 previously
accepted contents reaches 0.95; the threshold is inclusive (similarity
exactly 95/100 is a near duplicate, 9499/10000 is not), and contents
accepted more than 100 acceptances earlier are never compared against
(a similar content buried 101 acceptances back does not fire). -/
theorem is_near_duplicate_window_and_threshold :
    (∀ (sim : String → String → ℚ) (content : String) (seen : List String),
        is_near_duplicate sim content seen = true
          ↔ ∃ s ∈ seen.drop (seen.length - 100), 95 / 100 ≤ sim content s)
    ∧ is_near_duplicate (fun _ _ => 95 / 100) "x" ["y"] = true
    ∧ is_near_duplicate (fun _ _ => 9499 / 10000) "x" ["y"] = false
    ∧ is_near_duplicate (fun _ s => if s = "old" then 1 else 0) "x"
        ("old" :: List.replicate 100 "z") = false := by
  refine ⟨?_, ?_, ?_, ?_⟩
  · intro sim content seen
    have hdrop : seen.length - min 100 seen.length = seen.length - 100 := by omega
    simp [is_near_duplicate, NEAR_DUPLICATE_THRESHOLD, List.any_eq_true, hdrop]
  · simp [is_near_duplicate, NEAR_DUPLICATE_THRESHOLD]
  · simp only [is_near_duplicate, NEAR_DUPLICATE_THRESHOLD]
    norm_num
  · have hz : ("z" : String) ≠ "old" := by decide
    simp only [is_near_duplicate, NEAR_DUPLICATE_THRESHOLD, List.length_cons,
      List.length_replicate]
    norm_num [List.any_eq_true, List.mem_replicate, hz]

/-! ### Idempotence of cleaning (C5)

`Accepts sim hash detect patterns l hs cs` says that, started from dedup
state `(hs, cs)`, the cleaning loop accepts every chunk of `l` in turn.
The output of any run satisfies it, it is antitone in the pattern list, and
a run over an accepted list removes nothing. -/

def Accepts (sim : String → String → ℚ) (hash : String → String) (detect : Bool)
    (patterns : List String) : List Chunk → List String → List String → Prop
  | [], _, _ => True
  | c :: rest, hs, cs =>
    (¬ c.pageContent.trim = ""
      ∧ ¬ c.pageContent.trim.length < MIN_CHUNK_SIZE
      ∧ ¬ hs.contains (hash c.pageContent.trim) = true
      ∧ ¬ is_near_duplicate sim c.pageContent.trim cs = true
      ∧ ¬ (detect && is_boilerplate patterns c.pageContent.trim) = true)
    ∧ Accepts sim hash detect patterns rest
        (hs ++ [hash c.pageContent.trim]) (cs ++ [c.pageContent.trim])

lemma clean_loop_accepts (sim : String → String → ℚ) (hash : String → String)
    (detect : Bool) (patterns : List String) :
    ∀ (l : List Chunk) (hs cs : List String),
      Accepts sim hash detect patterns
        (clean_loop sim hash detect patterns l hs cs).1 hs cs := by
  intro l
  induction l with
  | nil => intro hs cs; simp [clean_loop, Accepts]
  | cons a rest ih =>
    intro hs cs
    by_cases h1 : a.pageContent.trim = ""
    · simp only [clean_loop, if_pos h1]
      exact ih hs cs
    · by_cases h2 : a.pageContent.trim.length < MIN_CHUNK_SIZE
      · simp only [clean_loop, if_neg h1, if_pos h2]
        exact ih hs cs
      · by_cases h3 : hs.contains (hash a.pageContent.trim) = true
        · simp only [clean_loop, if_neg h1, if_neg h2, if_pos h3]
          exact ih hs cs
        · by_cases h4 : is_near_duplicate sim a.pageContent.trim cs = true
          · simp only [clean_loop, if_neg h1, if_neg h2, if_neg h3, if_pos h4]
            exact ih hs cs
          · by_cases h5 : (detect && is_boilerplate patterns a.pageContent.trim) = true
            · simp only [clean_loop, if_neg h1, if_neg h2, if_neg h3, if_neg h4, if_pos h5]
              exact ih hs cs
            · simp only [clean_loop, if_neg h1, if_neg h2, if_neg h3, if_neg h4, if_neg h5]
              exact ⟨⟨h1, h2, h3, h4, h5⟩, ih _ _⟩

lemma accepts_clean_loop (sim : String → String → ℚ) (hash : String → String)
    (detect : Bool) (patterns : List String) :
    ∀ (l : List Chunk) (hs cs : List String),
      Accepts sim hash detect patterns l hs cs →
      clean_loop sim hash detect patterns l hs cs = (l, ⟨0, 0, 0, 0⟩) := by
  intro l
  induction l with
  | nil => intro hs cs _; simp [clean_loop]
  | cons a rest ih =>
    intro hs cs h
    obtain ⟨⟨h1, h2, h3, h4, h5⟩, hrest⟩ := h
    simp only [clean_loop, if_neg h1, if_neg h2, if_neg h3, if_neg h4, if_neg h5]
    rw [ih _ _ hrest]

lemma is_boilerplate_mono (pat₁ pat₂ : List String) (t : String)
    (hsub : ∀ p ∈ pat₂, p ∈ pat₁) (h : is_boilerplate pat₂ t = true) :
    is_boilerplate pat₁ t = true := by
  unfold is_boilerplate at h ⊢
  by_cases he₂ : pat₂.isEmpty
  · simp [he₂] at h
  · have hne₂ : pat₂ ≠ [] := by
      cases pat₂ <;> simp_all
    obtain ⟨q, hq⟩ : ∃ q, q ∈ pat₂ := by
      cases pat₂ with
      | nil => exact absurd rfl hne₂
      | cons x xs => exact ⟨x, List.mem_cons_self x xs⟩
    have hne₁ : ¬ pat₁.isEmpty := by
      have : q ∈ pat₁ := hsub q hq
      cases pat₁ <;> simp_all
    simp only [he₂, if_neg he₂, if_neg hne₁, Bool.if_false_left] at h ⊢
    by_cases hl : (((t.splitOn "\n").map String.trim).filter (fun l => !(l == ""))).isEmpty
    · simp [hl] at h
    · simp only [hl, if_neg hl] at h ⊢
      have hmono :
          (((t.splitOn "\n").map String.trim).filter (fun l => !(l == ""))).countP
              (fun line => pat₂.any (fun p => substrOf p line))
            ≤ (((t.splitOn "\n").map String.trim).filter (fun l => !(l == ""))).countP
              (fun line => pat₁.any (fun p => substrOf p line)) := by
        refine List.countP_mono_left ?_
        intro line _ hp
        rw [List.any_eq_true] at hp ⊢
        obtain ⟨p, hp₂, hps⟩ := hp
        exact ⟨p, hsub p hp₂, hps⟩
      simp only [Bool.and_eq_true, decide_eq_true_eq] at h
      obtain ⟨-, -, h3⟩ := h
      simp only [Bool.and_eq_true, decide_eq_true_eq]
      exact ⟨by decide, by omega⟩

lemma accepts_mono_patterns (sim : String → String → ℚ) (hash : String → String)
    (detect : Bool) (pat₁ pat₂ : List String) (hsub : ∀ p ∈ pat₂, p ∈ pat₁) :
    ∀ (l : List Chunk) (hs cs : List String),
      Accepts sim hash detect pat₁ l hs cs → Accepts sim hash detect pat₂ l hs cs := by
  intro l
  induction l with
  | nil => intro hs cs h; exact h
  | cons a rest ih =>
    intro hs cs h
    obtain ⟨⟨h1, h2, h3, h4, h5⟩, hrest⟩ := h
    refine ⟨⟨h1, h2, h3, h4, ?_⟩, ih _ _ hrest⟩
    intro hcon
    rw [Bool.and_eq_true] at hcon
    exact h5 (by
      rw [Bool.and_eq_true]
      exact ⟨hcon.1, is_boilerplate_mono pat₁ pat₂ _ hsub hcon.2⟩)

lemma sublist_flatten_mono {α : Type} {L L' : List (List α)}
    (h : List.Sublist L L') : List.Sublist L.flatten L'.flatten := by
  induction h with
  | slnil => simp
  | cons a _ ih => simpa using (List.nil_sublist a).append ih
  | cons₂ a _ ih => simpa using (List.Sublist.refl a).append ih

lemma detect_boilerplate_patterns_mono (l l' : List Chunk)
    (h : List.Sublist l l') :
    ∀ p ∈ detect_boilerplate_patterns l, p ∈ detect_boilerplate_patterns l' := by
  intro p hp
  have hsub : List.Sublist (allCandidateLines l) (allCandidateLines l') :=
    sublist_flatten_mono (h.map candidateLines)
  rw [detect_boilerplate_patterns, List.mem_filter, List.mem_dedup] at hp
  obtain ⟨_, hcount⟩ := hp
  rw [decide_eq_true_eq] at hcount
  have hcount' : BOILERPLATE_MIN_OCCURRENCES ≤ (allCandidateLines l').count p :=
    le_trans hcount (hsub.count_le p)
  rw [detect_boilerplate_patterns, List.mem_filter, List.mem_dedup]
  refine ⟨List.count_pos_iff.mp ?_, by simpa using hcount'⟩
  calc 0 < BOILERPLATE_MIN_OCCURRENCES := by norm_num [BOILERPLATE_MIN_OCCURRENCES]
    _ ≤ _ := hcount'

/-- C5: cleaning is idempotent.  For every similarity and hash capability,
every boilerplate-detection flag and every input list, running
`clean_chunks` (with fresh cleaner state) on the output of a previous
`clean_chunks` run removes nothing: the second run returns its input
unchanged and all four removal counters of its stats are zero. -/
theorem clean_chunks_idempotent (sim : String → String → ℚ)
    (hash : String → String) (chunks : List Chunk) (detect : Bool) :
    (clean_chunks sim hash (clean_chunks sim hash chunks detect).1 detect).1
        = (clean_chunks sim hash chunks detect).1
    ∧ (clean_chunks sim hash (clean_chunks sim hash chunks detect).1 detect).2.too_small_removed = 0
    ∧ (clean_chunks sim hash (clean_chunks sim hash chunks detect).1 detect).2.exact_duplicates_removed = 0
    ∧ (clean_chunks sim hash (clean_chunks sim hash chunks detect).1 detect).2.near_duplicates_removed = 0
    ∧ (clean_chunks sim hash (clean_chunks sim hash chunks detect).1 detect).2.boilerplate_removed = 0
    ∧ (clean_chunks sim hash (clean_chunks sim hash chunks detect).1 detect).2.total_output
        = (clean_chunks sim hash (clean_chunks sim hash chunks detect).1 detect).2.total_input := by
  have key : ∀ out : List Chunk,
      Accepts sim hash detect (if detect then detect_boilerplate_patterns chunks else [])
        out [] [] →
      List.Sublist out chunks →
      clean_loop sim hash detect (if detect then detect_boilerplate_patterns out else [])
        out [] [] = (out, ⟨0, 0, 0, 0⟩) := by
    intro out hacc hsubl
    have hsub : ∀ p ∈ (if detect then detect_boilerplate_patterns out else []),
        p ∈ (if detect then detect_boilerplate_patterns chunks else []) := by
      intro p hp
      by_cases hd : detect
      · rw [if_pos hd] at hp ⊢
        exact detect_boilerplate_patterns_mono out chunks hsubl p hp
      · rw [if_neg hd] at hp
        exact absurd hp (List.not_mem_nil p)
    exact accepts_clean_loop sim hash detect _ out [] []
      (accepts_mono_patterns sim hash detect _ _ hsub out [] [] hacc)
  have hrun := key (clean_chunks sim hash chunks detect).1
    (clean_loop_accepts sim hash detect
      (if detect then detect_boilerplate_patterns chunks else []) chunks [] [])
    (clean_loop_sublist sim hash detect
      (if detect then detect_boilerplate_patterns chunks else []) chunks [] [])
  refine ⟨?_, ?_, ?_, ?_, ?_, ?_⟩
  · show (clean_loop sim hash detect
        (if detect then detect_boilerplate_patterns (clean_chunks sim hash chunks detect).1
          else []) (clean_chunks sim hash chunks detect).1 [] []).1
      = (clean_chunks sim hash chunks detect).1
    rw [hrun]
  · show (clean_loop sim hash detect
        (if detect then detect_boilerplate_patterns (clean_chunks sim hash chunks detect).1
          else []) (clean_chunks sim hash chunks detect).1 [] []).2.tooSmall = 0
    rw [hrun]
  · show (clean_loop sim hash detect
        (if detect then detect_boilerplate_patterns (clean_chunks sim hash chunks detect).1
          else []) (clean_chunks sim hash chunks detect).1 [] []).2.exactDup = 0
    rw [hrun]
  · show (clean_loop sim hash detect
        (if detect then detect_boilerplate_patterns (clean_chunks sim hash chunks detect).1
          else []) (clean_chunks sim hash chunks detect).1 [] []).2.nearDup = 0
    rw [hrun]
  · show (clean_loop sim hash detect
        (if detect then detect_boilerplate_patterns (clean_chunks sim hash chunks detect).1
          else []) (clean_chunks sim hash chunks detect).1 [] []).2.boiler = 0
    rw [hrun]
  · show (clean_loop sim hash detect
        (if detect then detect_boilerplate_patterns (clean_chunks sim hash chunks detect).1
          else []) (clean_chunks sim hash chunks detect).1 [] []).1.length
      = (clean_chunks sim hash chunks detect).1.length
    rw [hrun]

/-! ## Document analyzer (`src/document_analyzer.py`) -/

/-- `DocumentAnalyzer.MIN_CONTENT_LENGTH` (line 47). -/
def MIN_CONTENT_LENGTH : Nat := 50

/-- `DocumentAnalyzer.MAX_AVG_LINE_LENGTH` (line 49). -/
def MAX_AVG_LINE_LENGTH : Nat := 200

/-- `DocumentAnalyzer._calculate_quality_score` (lines 183-221), with the
float arithmetic modelled exactly over `ℚ`; `issues` is the length of the
detected-issue list.  The score starts at 1.0, is multiplied by
`char_count / 50` when the text is shorter than `MIN_CONTENT_LENGTH`, by
`max 0.5 (1 - (avg - 200) / 200)` when the average line length exceeds
`MAX_AVG_LINE_LENGTH`, always by `max 0.3 (1 - 0.1 * issues)`, by 1.1 when
`char_count > 0` and the word density lies in `[0.15, 0.25]`, and the
result is clamped to `[0, 1]`. -/
def calculate_quality_score (char_count word_count : Nat) (avg_line_length : ℚ)
    (issues : Nat) : ℚ :=
  let score : ℚ := 1
  let score := if char_count < MIN_CONTENT_LENGTH
    then score * ((char_count : ℚ) / (MIN_CONTENT_LENGTH : ℚ)) else score
  let score := if (MAX_AVG_LINE_LENGTH : ℚ) < avg_line_length
    then score * max (1/2) (1 - (avg_line_length - (MAX_AVG_LINE_LENGTH : ℚ))
      / (MAX_AVG_LINE_LENGTH : ℚ))
    else score
  let score := score * max (3/10) (1 - (1/10) * (issues : ℚ))
  let score := if 0 < char_count
      ∧ 15/100 ≤ (word_count : ℚ) / (char_count : ℚ)
      ∧ (word_count : ℚ) / (char_count : ℚ) ≤ 25/100
    then score * (11/10) else score
  min 1 (max 0 score)

/-- The quality-score formula as the specification states it: 1.0 subjected
to four independent multiplicative factors — `char_count/50` below the
minimum length, `max 0.5 (1 - (avg-200)/200)` above the maximum average
line length, `max 0.3 (1 - 0.1*issues)` always, and an 1.1 bonus when the
word density (words per character) lies in `[0.15, 0.25]` — with the final
product clamped to `[0, 1]`. -/
def qualityScoreSpec (char_count word_count : Nat) (avg_line_length : ℚ)
    (issues : Nat) : ℚ :=
  let lengthFactor : ℚ :=
    if char_count < 50 then (char_count : ℚ) / 50 else 1
  let lineFactor : ℚ :=
    if 200 < avg_line_length then max (1/2) (1 - (avg_line_length - 200) / 200) else 1
  let issueFactor : ℚ := max (3/10) (1 - (1/10) * (issues : ℚ))
  let density : ℚ := (word_count : ℚ) / (char_count : ℚ)
  let bonusFactor : ℚ := if 15/100 ≤ density ∧ density ≤ 25/100 then 11/10 else 1
  min 1 (max 0 (lengthFactor * lineFactor * issueFactor * bonusFactor))

/-- C7: for every character count, word count, average line length and
issue count, the analyzer's quality score equals the specification's
compositional formula: 1.0 under the four multiplicative factors
(proportional `char_count/50` below the 50-character minimum,
`max 0.5 (1-(avg-200)/200)` above average line length 200,
`max 0.3 (1-0.1*issues)`, the 1.1 density bonus on `[0.15, 0.25]`),
clamped to `[0, 1]`. -/
theorem calculate_quality_score_spec (char_count word_count : Nat)
    (avg_line_length : ℚ) (issues : Nat) :
    calculate_quality_score char_count word_count avg_line_length issues
      = qualityScoreSpec char_count word_count avg_line_length issues := by
  unfold calculate_quality_score qualityScoreSpec
  simp only [MIN_CONTENT_LENGTH, MAX_AVG_LINE_LENGTH, Nat.cast_ofNat]
  rcases Nat.eq_zero_or_pos char_count with hc | hc
  · subst hc
    norm_num
  · have hc' : (0 : Nat) < char_count := hc
    have hcond : (0 < char_count
          ∧ 15/100 ≤ (word_count : ℚ) / (char_count : ℚ)
          ∧ (word_count : ℚ) / (char_count : ℚ) ≤ 25/100)
        ↔ (15/100 ≤ (word_count : ℚ) / (char_count : ℚ)
          ∧ (word_count : ℚ) / (char_count : ℚ) ≤ 25/100) := by
      constructor
      · rintro ⟨-, h⟩; exact h
      · intro h; exact ⟨hc', h⟩
    rw [if_congr hcond rfl rfl]
    split_ifs <;> ring_nf

/-! ## Quality metrics (`src/quality_metrics.py`) -/

/-- The coefficient-of-variation → variance-ratio mapping inside
`QualityAnalyzer._estimate_pca_variance` (lines 189-200): `cv` is
`std(sizes) / mean(sizes)` computed upstream; the mapping returns 0.3 for
`cv < 0.1`, 0.4 for `cv > 0.8`, otherwise `0.5 + (cv - 0.4) * 0.5`, and the
result is clamped to `[0, 1]`. -/
def estimate_pca_variance_of_cv (cv : ℚ) : ℚ :=
  let variance_ratio : ℚ :=
    if cv < 1/10 then 3/10
    else if 4/5 < cv then 2/5
    else 1/2 + (cv - 2/5) * (1/2)
  min 1 (max 0 variance_ratio)

/-- C9 counterexample: a coefficient of variation of 0.7 lies outside
`[0.4, 0.5]` yet maps to 0.65, strictly above the 0.55 that `cv = 0.5`
(inside `[0.4, 0.5]`) maps to — so values near 0.4–0.5 do **not** receive
the highest score of the piecewise-linear mapping. -/
theorem estimate_pca_variance_peak_counterexample :
    estimate_pca_variance_of_cv (7/10) = 13/20
    ∧ estimate_pca_variance_of_cv (1/2) = 11/20
    ∧ estimate_pca_variance_of_cv (2/5) = 1/2
    ∧ ¬ ((7 : ℚ)/10 ≤ 1/2)
    ∧ ¬ (estimate_pca_variance_of_cv (7/10) ≤ estimate_pca_variance_of_cv (1/2)) := by
  refine ⟨?_, ?_, ?_, by norm_num, ?_⟩ <;>
    · unfold estimate_pca_variance_of_cv
      norm_num

/-- C9 amended: the mapping is constant 0.3 below `cv = 0.1`, constant 0.4
above `cv = 0.8`, and linear (`0.5 + (cv - 0.4)/2`, i.e. increasing from
0.35 to 0.7) on `[0.1, 0.8]`; its maximum value 0.7 is attained at
`cv = 0.8` rather than near 0.4–0.5, very low and very high variability
map to the low scores 0.3 and 0.4, and the output always lies in
`[0, 1]`. -/
theorem estimate_pca_variance_amended (cv : ℚ) :
    estimate_pca_variance_of_cv cv ≤ estimate_pca_variance_of_cv (4/5)
    ∧ estimate_pca_variance_of_cv (4/5) = 7/10
    ∧ (cv < 1/10 → estimate_pca_variance_of_cv cv = 3/10)
    ∧ (4/5 < cv → estimate_pca_variance_of_cv cv = 2/5)
    ∧ (1/10 ≤ cv → cv ≤ 4/5 →
        estimate_pca_variance_of_cv cv = 1/2 + (cv - 2/5) * (1/2))
    ∧ 0 ≤ estimate_pca_variance_of_cv cv
    ∧ estimate_pca_variance_of_cv cv ≤ 1 := by
  have hmax : estimate_pca_variance_of_cv (4/5) = 7/10 := by
    simp only [estimate_pca_variance_of_cv]
    norm_num
  refine ⟨?_, hmax, ?_, ?_, ?_, ?_, ?_⟩
  · rw [hmax]
    simp only [estimate_pca_variance_of_cv]
    by_cases h1 : cv < 1/10
    · rw [if_pos h1]; norm_num
    · by_cases h2 : (4:ℚ)/5 < cv
      · rw [if_neg h1, if_pos h2]; norm_num
      · rw [if_neg h1, if_neg h2]
        push_neg at h1 h2
        rw [max_eq_right (by nlinarith), min_eq_right (by nlinarith)]
        nlinarith
  · intro h
    simp only [estimate_pca_variance_of_cv]
    rw [if_pos h]; norm_num
  · intro h
    simp only [estimate_pca_variance_of_cv]
    rw [if_neg (by nlinarith : ¬ cv < 1/10), if_pos h]; norm_num
  · intro h h'
    simp only [estimate_pca_variance_of_cv]
    rw [if_neg (by nlinarith : ¬ cv < 1/10), if_neg (by nlinarith : ¬ (4:ℚ)/5 < cv)]
    rw [max_eq_right (by nlinarith), min_eq_right (by nlinarith)]
  · simp only [estimate_pca_variance_of_cv]
    exact le_min (by norm_num) (le_max_left _ _)
  · simp only [estimate_pca_variance_of_cv]
    exact min_le_left _ _

/-- C9 amended witness: the amended theorem applied at concrete
coefficients of variation, discharging each hypothesis: 0.05 maps to 0.3,
1 maps to 0.4, and 0.5 maps to 0.55. -/
theorem estimate_pca_variance_amended_witness :
    estimate_pca_variance_of_cv (1/20) = 3/10
    ∧ estimate_pca_variance_of_cv 1 = 2/5
    ∧ estimate_pca_variance_of_cv (1/2) = 1/2 + (1/2 - 2/5) * (1/2) :=
  ⟨(estimate_pca_variance_amended (1/20)).2.2.1 (by norm_num),
   (estimate_pca_variance_amended 1).2.2.2.1 (by norm_num),
   (estimate_pca_variance_amended (1/2)).2.2.2.2.1 (by norm_num) (by norm_num)⟩

/-! ## Local file indexer construction (`src/indexer.py`, `LocalFileIndexer`) -/

/-- `LOCAL_CHROMA_PATH` (indexer.py line 26). -/
def LOCAL_CHROMA_PATH : String := "data/local_chroma_db"

/-- The collection name `LocalFileIndexer.__init__` (lines 333-345) passes
to `BaseHybridIndexer.__init__`: the constant string `"local_files"`; the
`directory_path` argument is stored on the instance but takes no part in
the collection identity. -/
def localFileCollectionName (directory_path : String) : String := "local_files"

/-- The persistent vector-store path `LocalFileIndexer.__init__` passes to
the Chroma client: the constant `LOCAL_CHROMA_PATH`, again independent of
`directory_path`. -/
def localFileChromaPath (directory_path : String) : String := LOCAL_CHROMA_PATH

/-- C2 evaluation: the collection identifier is the same constant for
every source directory, so the two distinct directories `"/data/a"` and
`"/data/b"` (and likewise a path with and without a trailing separator)
receive the *same* backing collection `"local_files"` in the same
persistent store — distinct source directories share a vector collection,
contradicting the required isolation. -/
theorem localFileIndexer_collection_shared :
    localFileCollectionName "/data/a" = localFileCollectionName "/data/b"
    ∧ ("/data/a" : String) ≠ "/data/b"
    ∧ (∀ d : String, localFileCollectionName d = "local_files"
        ∧ localFileChromaPath d = "data/local_chroma_db") :=
  ⟨rfl, by decide, fun _ => ⟨rfl, rfl⟩⟩

/-! ## Vector store state machine for the build path (C6) -/

/-- One vector-store entry: identifier plus embedded document text. -/
structure ChromaEntry where
  id : String
  document : String
deriving DecidableEq, Repr

/-- A named Chroma collection. -/
structure ChromaCollection where
  name : String
  entries : List ChromaEntry
deriving DecidableEq, Repr

/-- The persistent Chroma client state: its collections in creation
order. -/
structure ChromaStore where
  collections : List ChromaCollection
deriving DecidableEq, Repr

/-- `chroma_client.delete_collection(name)`. -/
def delete_collection (st : ChromaStore) (n : String) : ChromaStore :=
  ⟨st.collections.filter (fun c => !(c.name == n))⟩

/-- `chroma_client.create_collection(name)`: a fresh empty collection. -/
def create_collection (st : ChromaStore) (n : String) : ChromaStore :=
  ⟨st.collections ++ [⟨n, []⟩]⟩

/-- `collection.add(ids, documents, ...)`: appends entries to the named
collection; every added document's text is embedded. -/
def collection_add (st : ChromaStore) (n : String) (es : List ChromaEntry) :
    ChromaStore :=
  ⟨st.collections.map (fun c => if c.name == n then ⟨c.name, c.entries ++ es⟩ else c)⟩

/-- `get_collection` lookup by name. -/
def get_collection (st : ChromaStore) (n : String) : Option ChromaCollection :=
  st.collections.find? (fun c => c.name == n)

/-- The vector phase of `LocalFileIndexer.build_index`
(indexer.py lines 384-393 and 499-510): `delete_collection` then
`create_collection` then `add` of every cleaned chunk (batched, which is
associative on this state).  The second component counts the chunk texts
embedded during the call. -/
def local_build_vector_phase (st : ChromaStore) (chunks : List ChromaEntry) :
    ChromaStore × Nat :=
  let st1 := delete_collection st "local_files"
  let st2 := create_collection st1 "local_files"
  let st3 := collection_add st2 "local_files" chunks
  (st3, chunks.length)

/-- C6 evaluation: on every build call the vector phase discards whatever
the `local_files` collection previously held and re-embeds every chunk —
the embedding count equals the full chunk count regardless of the prior
store, and in particular a rebuild over a store that already contains
exactly the same chunk (same identifier, same text) still embeds it again
instead of skipping it via upsert. -/
theorem local_build_vector_phase_not_incremental :
    (∀ (st : ChromaStore) (chunks : List ChromaEntry),
      (local_build_vector_phase st chunks).2 = chunks.length
      ∧ get_collection (local_build_vector_phase st chunks).1 "local_files"
          = some ⟨"local_files", chunks⟩)
    ∧ (local_build_vector_phase
        ⟨[⟨"local_files", [⟨"file://a.md#chunk0", "text0"⟩]⟩]⟩
        [⟨"file://a.md#chunk0", "text0"⟩]).2 = 1 := by
  refine ⟨fun st chunks => ⟨rfl, ?_⟩, rfl⟩
  simp only [local_build_vector_phase, collection_add, create_collection,
    delete_collection, get_collection, List.map_append, List.find?_append]
  have hnone :
      ((st.collections.filter (fun c => !(c.name == "local_files"))).map
          (fun c => if c.name == "local_files"
            then ChromaCollection.mk c.name (c.entries ++ chunks) else c)).find?
        (fun c => c.name == "local_files") = none := by
    rw [List.find?_eq_none]
    intro c hc
    rw [List.mem_map] at hc
    obtain ⟨c₀, hc₀, rfl⟩ := hc
    rw [List.mem_filter] at hc₀
    have hne : (c₀.name == "local_files") = false := by
      simpa using hc₀.2
    rw [if_neg (by simp [hne])]
    simp [hne]
  rw [hnone]
  simp

/-! ## Hybrid search fusion (`src/indexer.py`, `BaseHybridIndexer.hybrid_search`) -/

/-- A search result document as produced by `search` / `vector_search`:
`title`, `url` (the identifier RRF accumulates on) and `text`. -/
structure SearchDoc where
  title : String
  url : String
  text : String
deriving DecidableEq, Repr

/-- A fused result: a document plus the provenance tag `source`
(`"bm25"`, `"vector"` or `"both"`). -/
structure ResultDoc where
  title : String
  url : String
  text : String
  source : String
deriving DecidableEq, Repr

/-- `RRF_K` (indexer.py line 134). -/
def RRF_K : Nat := 60

/-- Insertion-ordered association list: the model of a Python dict. -/
def dictGet {α : Type} (d : List (String × α)) (k : String) : Option α :=
  (d.find? (fun p => p.1 == k)).map (fun p => p.2)

/-- Python `d[k] = v`: updating an existing key keeps its insertion
position, a new key is appended at the end. -/
def dictSet {α : Type} (d : List (String × α)) (k : String) (v : α) :
    List (String × α) :=
  if d.any (fun p => p.1 == k) then
    d.map (fun p => if p.1 == k then (k, v) else p)
  else d ++ [(k, v)]

/-- The keys of the dict, in insertion order (Python iteration order). -/
def dictKeys {α : Type} (d : List (String × α)) : List String :=
  d.map (fun p => p.1)

/-- The mutable state threaded through `hybrid_search`'s two accumulation
loops: `rrf_scores`, `doc_data` and `doc_sources` (lines 137-139). -/
structure FuseState where
  rrf_scores : List (String × ℚ)
  doc_data : List (String × SearchDoc)
  doc_sources : List (String × List String)
deriving Repr

/-- One iteration of an accumulation loop (lines 143-151 and 155-163):
add `1 / (RRF_K + rank + 1)` to the document's accumulated score, keep the
document body with the longer text, and append the list name to the
document's sources. -/
def fuseStep (st : FuseState) (doc : SearchDoc) (rank : Nat) (src : String) :
    FuseState :=
  let url := doc.url
  let rrf := dictSet st.rrf_scores url
    ((dictGet st.rrf_scores url).getD 0 + 1 / ((RRF_K : ℚ) + (rank : ℚ) + 1))
  let dd := match dictGet st.doc_data url with
    | none => dictSet st.doc_data url doc
    | some d0 =>
        if d0.text.length < doc.text.length then dictSet st.doc_data url doc
        else st.doc_data
  let ds := dictSet st.doc_sources url ((dictGet st.doc_sources url).getD [] ++ [src])
  ⟨rrf, dd, ds⟩

/-- One full accumulation loop over a ranked result list, with `rank`
starting at the given offset (`enumerate` starts at 0). -/
def fuseList (st : FuseState) (src : String) (rank : Nat) :
    List SearchDoc → FuseState
  | [] => st
  | d :: ds => fuseList (fuseStep st d rank src) src (rank + 1) ds

/-- Stable insertion for descending sort: a later element is placed after
every earlier element whose score is at least its own (Python `sorted` with
`reverse=True` keeps the original order of equal keys). -/
def insertByScore (score : String → ℚ) (u : String) : List String → List String
  | [] => [u]
  | v :: vs => if score u ≤ score v then v :: insertByScore score u vs
      else u :: v :: vs

/-- The stable descending sort of line 166:
`sorted(rrf_scores.keys(), key=lambda x: rrf_scores[x], reverse=True)`. -/
def sortByScoreDesc (score : String → ℚ) (urls : List String) : List String :=
  urls.foldl (fun acc u => insertByScore score u acc) []

/-- The accumulation phase of `hybrid_search` (lines 133-163): the BM25
list contributes when the strategy is `"keyword"` or `"hybrid"`, the
vector list when it is `"semantic"` or `"hybrid"`. -/
def hybridFuseState (bm25_results vector_results : List SearchDoc)
    (strategy : String) : FuseState :=
  let st0 : FuseState := ⟨[], [], []⟩
  let st1 := if strategy = "keyword" ∨ strategy = "hybrid"
    then fuseList st0 "bm25" 0 bm25_results else st0
  if strategy = "semantic" ∨ strategy = "hybrid"
    then fuseList st1 "vector" 0 vector_results else st1

/-- `BaseHybridIndexer.hybrid_search` (lines 116-176) as a function of the
two contributing ranked result lists: accumulate RRF scores, sort the
identifiers by accumulated score descending (stable over dict insertion
order), truncate to `top_k`, and emit each document with its provenance
tag (`"both"` when it has more than one contributing source). -/
def hybrid_search (bm25_results vector_results : List SearchDoc)
    (top_k : Nat) (strategy : String) : List ResultDoc :=
  let st := hybridFuseState bm25_results vector_results strategy
  let score := fun u => (dictGet st.rrf_scores u).getD 0
  let sorted_urls := (sortByScoreDesc score (dictKeys st.rrf_scores)).take top_k
  sorted_urls.map (fun u =>
    let d := (dictGet st.doc_data u).getD ⟨"", "", ""⟩
    let srcs := (dictGet st.doc_sources u).getD []
    ⟨d.title, d.url, d.text, if 1 < srcs.length then "both" else srcs.headD ""⟩)

/-- The urls of a result list, in order. -/
def docUrls (l : List SearchDoc) : List String := l.map (fun d => d.url)

/-- The identifiers that fusion accumulates, in dict insertion order: the
BM25 urls followed by the vector urls not already seen. -/
def rrfKeys (bm vec : List SearchDoc) : List String :=
  docUrls bm ++ (docUrls vec).filter (fun u => !(docUrls bm).contains u)

/-- The accumulated score the specification prescribes: each list
containing the identifier contributes `1 / (60 + r + 1)` where `r` is its
0-based rank in that list. -/
def rrfSpecScore (bm vec : List SearchDoc) (u : String) : ℚ :=
  (if u ∈ docUrls bm then 1 / (60 + ((docUrls bm).indexOf u : ℚ) + 1) else 0)
  + (if u ∈ docUrls vec then 1 / (60 + ((docUrls vec).indexOf u : ℚ) + 1) else 0)

/-! ### Dict lemmas -/

lemma any_key_eq_mem {α : Type} (d : List (String × α)) (k : String) :
    d.any (fun p => p.1 == k) = true ↔ k ∈ dictKeys d := by
  rw [List.any_eq_true, dictKeys]
  constructor
  · rintro ⟨p, hp, hc⟩
    rw [List.mem_map]
    exact ⟨p, hp, by simpa [beq_iff_eq] using hc⟩
  · intro h
    rw [List.mem_map] at h
    obtain ⟨p, hp, hk⟩ := h
    exact ⟨p, hp, by simp [hk]⟩

lemma find?_map_upd_ne {α : Type} (d : List (String × α)) (k k' : String) (v : α)
    (h : k' ≠ k) :
    ((d.map (fun p => if p.1 == k then (k, v) else p)).find? (fun p => p.1 == k'))
      = d.find? (fun p => p.1 == k') := by
  induction d with
  | nil => rfl
  | cons p d' ih =>
    by_cases hpk : p.1 = k
    · have h1 : (p.1 == k) = true := by simp [hpk]
      have h2 : ((k, v).1 == k') = false := by simp [beq_eq_false_iff_ne, Ne.symm h]
      have h3 : (p.1 == k') = false := by
        rw [beq_eq_false_iff_ne]
        rw [hpk]
        exact Ne.symm h
      simp only [List.map_cons, List.find?_cons]
      rw [if_pos h1]
      simp only [List.find?_cons, h2, h3]
      exact ih
    · have h1 : (p.1 == k) = false := by simp [beq_eq_false_iff_ne, hpk]
      simp only [List.map_cons, h1, Bool.false_eq_true, if_false, List.find?_cons]
      by_cases h2 : p.1 = k'
      · simp [h2]
      · have h3 : (p.1 == k') = false := by simp [beq_eq_false_iff_ne, h2]
        simp only [h3]
        exact ih

lemma find?_map_upd_self {α : Type} (d : List (String × α)) (k : String) (v : α)
    (hmem : k ∈ dictKeys d) :
    ((d.map (fun p => if p.1 == k then (k, v) else p)).find? (fun p => p.1 == k))
      = some (k, v) := by
  induction d with
  | nil => simp [dictKeys] at hmem
  | cons p d' ih =>
    by_cases hpk : p.1 = k
    · have h1 : (p.1 == k) = true := by simp [hpk]
      simp only [List.map_cons, List.find?_cons]
      rw [if_pos h1]
      simp
    · have h1 : (p.1 == k) = false := by simp [beq_eq_false_iff_ne, hpk]
      have hmem' : k ∈ dictKeys d' := by
        simp only [dictKeys, List.map_cons, List.mem_cons] at hmem
        rcases hmem with h | h
        · exact absurd h.symm hpk
        · exact h
      simp only [List.map_cons, List.find?_cons]
      rw [if_neg (by simp [h1])]
      simp only [List.find?_cons, h1]
      exact ih hmem'

lemma dictGet_dictSet {α : Type} (d : List (String × α)) (k k' : String) (v : α) :
    dictGet (dictSet d k v) k' = if k' = k then some v else dictGet d k' := by
  by_cases hmem : k ∈ dictKeys d
  · have hany : (d.any (fun p => p.1 == k)) = true := (any_key_eq_mem d k).mpr hmem
    rw [dictSet, if_pos hany]
    by_cases h : k' = k
    · subst h
      rw [if_pos rfl, dictGet, find?_map_upd_self d k' v hmem]
      rfl
    · rw [if_neg h, dictGet, find?_map_upd_ne d k k' v h, dictGet]
  · have hany : ¬ (d.any (fun p => p.1 == k)) = true := fun hc =>
      hmem ((any_key_eq_mem d k).mp hc)
    rw [dictSet, if_neg hany, dictGet, List.find?_append]
    by_cases h : k' = k
    · subst h
      have hnone : d.find? (fun p => p.1 == k') = none := by
        rw [List.find?_eq_none]
        intro p hp hc
        exact hmem (by
          rw [dictKeys, List.mem_map]
          exact ⟨p, hp, by simpa [beq_iff_eq] using hc⟩)
      rw [if_pos rfl, hnone]
      simp
    · rw [if_neg h]
      have h2 : ([(k, v)].find? (fun p => p.1 == k')) = none := by
        simp [beq_eq_false_iff_ne, Ne.symm h]
      rw [h2, dictGet]
      cases d.find? (fun p => p.1 == k') <;> rfl

lemma dictKeys_dictSet {α : Type} (d : List (String × α)) (k : String) (v : α) :
    dictKeys (dictSet d k v)
      = if k ∈ dictKeys d then dictKeys d else dictKeys d ++ [k] := by
  by_cases hmem : k ∈ dictKeys d
  · have hany : (d.any (fun p => p.1 == k)) = true := (any_key_eq_mem d k).mpr hmem
    rw [dictSet, if_pos hany, if_pos hmem, dictKeys, dictKeys, List.map_map]
    refine List.map_congr_left ?_
    intro p _
    by_cases hpk : p.1 = k
    · simp [hpk]
    · simp [beq_eq_false_iff_ne, hpk]
  · have hany : ¬ (d.any (fun p => p.1 == k)) = true := fun hc =>
      hmem ((any_key_eq_mem d k).mp hc)
    rw [dictSet, if_neg hany, if_neg hmem, dictKeys, dictKeys, List.map_append]
    rfl

lemma dictGet_isSome_dictSet {α : Type} (d : List (String × α)) (k k' : String)
    (v : α) (h : (dictGet d k').isSome) : (dictGet (dictSet d k v) k').isSome := by
  rw [dictGet_dictSet]
  by_cases hk : k' = k
  · rw [if_pos hk]; rfl
  · rw [if_neg hk]; exact h

lemma dictGet_none_not_mem_keys {α : Type} (d : List (String × α)) (k : String)
    (h : k ∉ dictKeys d) : dictGet d k = none := by
  rw [dictGet, List.find?_eq_none.mpr]
  · rfl
  · intro p hp hc
    exact h (by
      rw [dictKeys, List.mem_map]
      exact ⟨p, hp, by simpa [beq_iff_eq] using hc⟩)

/-! ### Fusion loop invariants -/

lemma docUrls_cons (d : SearchDoc) (l : List SearchDoc) :
    docUrls (d :: l) = d.url :: docUrls l := rfl

lemma fuseList_rrf_not_mem (src : String) :
    ∀ (l : List SearchDoc) (st : FuseState) (r : Nat) (u : String),
      u ∉ docUrls l →
      dictGet (fuseList st src r l).rrf_scores u = dictGet st.rrf_scores u := by
  intro l
  induction l with
  | nil => intro st r u _; rfl
  | cons d l' ih =>
    intro st r u hu
    rw [docUrls_cons, List.mem_cons] at hu
    push_neg at hu
    show dictGet (fuseList (fuseStep st d r src) src (r + 1) l').rrf_scores u = _
    rw [ih _ _ _ hu.2]
    show dictGet (dictSet st.rrf_scores d.url _) u = _
    rw [dictGet_dictSet, if_neg hu.1]

lemma fuseList_sources_not_mem (src : String) :
    ∀ (l : List SearchDoc) (st : FuseState) (r : Nat) (u : String),
      u ∉ docUrls l →
      dictGet (fuseList st src r l).doc_sources u = dictGet st.doc_sources u := by
  intro l
  induction l with
  | nil => intro st r u _; rfl
  | cons d l' ih =>
    intro st r u hu
    rw [docUrls_cons, List.mem_cons] at hu
    push_neg at hu
    show dictGet (fuseList (fuseStep st d r src) src (r + 1) l').doc_sources u = _
    rw [ih _ _ _ hu.2]
    show dictGet (dictSet st.doc_sources d.url _) u = _
    rw [dictGet_dictSet, if_neg hu.1]

lemma fuseList_rrf_mem (src : String) :
    ∀ (l : List SearchDoc) (st : FuseState) (r : Nat) (u : String),
      (docUrls l).Nodup → u ∈ docUrls l →
      dictGet (fuseList st src r l).rrf_scores u
        = some ((dictGet st.rrf_scores u).getD 0
            + 1 / ((RRF_K : ℚ) + ((r + (docUrls l).indexOf u : Nat) : ℚ) + 1)) := by
  intro l
  induction l with
  | nil => intro st r u _ hu; simp [docUrls] at hu
  | cons d l' ih =>
    intro st r u hnd hmem
    rw [docUrls_cons] at hnd hmem ⊢
    show dictGet (fuseList (fuseStep st d r src) src (r + 1) l').rrf_scores u = _
    by_cases hu : u = d.url
    · subst hu
      have hnotin : d.url ∉ docUrls l' := (List.nodup_cons.mp hnd).1
      rw [fuseList_rrf_not_mem src l' _ _ _ hnotin]
      show dictGet (dictSet st.rrf_scores d.url _) d.url = _
      rw [dictGet_dictSet, if_pos rfl, List.indexOf_cons_self]
      norm_num
    · have hmem' : u ∈ docUrls l' := by
        rcases List.mem_cons.mp hmem with h | h
        · exact absurd h hu
        · exact h
      have hnd' : (docUrls l').Nodup := (List.nodup_cons.mp hnd).2
      rw [ih _ _ _ hnd' hmem']
      have hget : dictGet (fuseStep st d r src).rrf_scores u
          = dictGet st.rrf_scores u := by
        show dictGet (dictSet st.rrf_scores d.url _) u = _
        rw [dictGet_dictSet, if_neg hu]
      rw [hget, List.indexOf_cons_ne _ (Ne.symm hu)]
      congr 2
      push_cast [Nat.succ_eq_add_one]
      ring

lemma fuseList_sources_mem (src : String) :
    ∀ (l : List SearchDoc) (st : FuseState) (r : Nat) (u : String),
      (docUrls l).Nodup → u ∈ docUrls l →
      dictGet (fuseList st src r l).doc_sources u
        = some ((dictGet st.doc_sources u).getD [] ++ [src]) := by
  intro l
  induction l with
  | nil => intro st r u _ hu; simp [docUrls] at hu
  | cons d l' ih =>
    intro st r u hnd hmem
    rw [docUrls_cons] at hnd hmem
    show dictGet (fuseList (fuseStep st d r src) src (r + 1) l').doc_sources u = _
    by_cases hu : u = d.url
    · subst hu
      have hnotin : d.url ∉ docUrls l' := (List.nodup_cons.mp hnd).1
      rw [fuseList_sources_not_mem src l' _ _ _ hnotin]
      show dictGet (dictSet st.doc_sources d.url _) d.url = _
      rw [dictGet_dictSet, if_pos rfl]
    · have hmem' : u ∈ docUrls l' := by
        rcases List.mem_cons.mp hmem with h | h
        · exact absurd h hu
        · exact h
      have hnd' : (docUrls l').Nodup := (List.nodup_cons.mp hnd).2
      rw [ih _ _ _ hnd' hmem']
      have hget : dictGet (fuseStep st d r src).doc_sources u
          = dictGet st.doc_sources u := by
        show dictGet (dictSet st.doc_sources d.url _) u = _
        rw [dictGet_dictSet, if_neg hu]
      rw [hget]

lemma fuseList_rrf_keys (src : String) :
    ∀ (l : List SearchDoc) (st : FuseState) (r : Nat),
      (docUrls l).Nodup →
      dictKeys (fuseList st src r l).rrf_scores
        = dictKeys st.rrf_scores
          ++ (docUrls l).filter (fun u => !(dictKeys st.rrf_scores).contains u) := by
  intro l
  induction l with
  | nil => intro st r _; simp [docUrls, fuseList]
  | cons d l' ih =>
    intro st r hnd
    rw [docUrls_cons] at hnd ⊢
    have hnd' : (docUrls l').Nodup := (List.nodup_cons.mp hnd).2
    have hnotin : d.url ∉ docUrls l' := (List.nodup_cons.mp hnd).1
    show dictKeys (fuseList (fuseStep st d r src) src (r + 1) l').rrf_scores = _
    rw [ih _ _ hnd']
    have hkeys : dictKeys (fuseStep st d r src).rrf_scores
        = if d.url ∈ dictKeys st.rrf_scores then dictKeys st.rrf_scores
          else dictKeys st.rrf_scores ++ [d.url] := by
      show dictKeys (dictSet st.rrf_scores d.url _) = _
      rw [dictKeys_dictSet]
    by_cases hmem : d.url ∈ dictKeys st.rrf_scores
    · rw [hkeys, if_pos hmem]
      have hhead : ((dictKeys st.rrf_scores).contains d.url) = true := by
        simpa using hmem
      rw [List.filter_cons]
      simp only [hhead, Bool.not_true, Bool.false_eq_true, if_false]
    · rw [hkeys, if_neg hmem]
      have hhead : ((dictKeys st.rrf_scores).contains d.url) = false := by
        simpa using hmem
      rw [List.filter_cons]
      simp only [hhead, Bool.not_false, if_true]
      rw [List.append_assoc]
      congr 1
      rw [List.singleton_append]
      congr 1
      refine List.filter_congr ?_
      intro u hu
      have hune : u ≠ d.url := fun hc => hnotin (hc ▸ hu)
      simp [List.mem_append, hune]

lemma fuseStep_docdata_isSome (st : FuseState) (d : SearchDoc) (r : Nat)
    (src : String) (u : String) (h : (dictGet st.doc_data u).isSome) :
    (dictGet (fuseStep st d r src).doc_data u).isSome := by
  show (dictGet (match dictGet st.doc_data d.url with
    | none => dictSet st.doc_data d.url d
    | some d0 => if d0.text.length < d.text.length then dictSet st.doc_data d.url d
        else st.doc_data) u).isSome
  split
  · exact dictGet_isSome_dictSet _ _ _ _ h
  · split
    · exact dictGet_isSome_dictSet _ _ _ _ h
    · exact h

lemma fuseStep_docdata_isSome_self (st : FuseState) (d : SearchDoc) (r : Nat)
    (src : String) :
    (dictGet (fuseStep st d r src).doc_data d.url).isSome := by
  show (dictGet (match dictGet st.doc_data d.url with
    | none => dictSet st.doc_data d.url d
    | some d0 => if d0.text.length < d.text.length then dictSet st.doc_data d.url d
        else st.doc_data) d.url).isSome
  split
  · rw [dictGet_dictSet, if_pos rfl]; rfl
  · split
    · rw [dictGet_dictSet, if_pos rfl]; rfl
    · next heq _ =>
      rw [heq]
      rfl

lemma fuseList_docdata_isSome (src : String) :
    ∀ (l : List SearchDoc) (st : FuseState) (r : Nat) (u : String),
      (u ∈ docUrls l ∨ (dictGet st.doc_data u).isSome) →
      (dictGet (fuseList st src r l).doc_data u).isSome := by
  intro l
  induction l with
  | nil =>
    intro st r u h
    rcases h with h | h
    · simp [docUrls] at h
    · exact h
  | cons d l' ih =>
    intro st r u h
    show (dictGet (fuseList (fuseStep st d r src) src (r + 1) l').doc_data u).isSome
    rcases h with h | h
    · rcases List.mem_cons.mp (by rwa [docUrls_cons] at h) with h | h
      · subst h
        exact ih _ _ _ (Or.inr (fuseStep_docdata_isSome_self st d r src))
      · exact ih _ _ _ (Or.inl h)
    · exact ih _ _ _ (Or.inr (fuseStep_docdata_isSome st d r src u h))

lemma fuseStep_docdata_url (st : FuseState) (d : SearchDoc) (r : Nat) (src : String)
    (hst : ∀ u d0, dictGet st.doc_data u = some d0 → d0.url = u) :
    ∀ u d0, dictGet (fuseStep st d r src).doc_data u = some d0 → d0.url = u := by
  intro u d0
  show dictGet (match dictGet st.doc_data d.url with
    | none => dictSet st.doc_data d.url d
    | some d1 => if d1.text.length < d.text.length then dictSet st.doc_data d.url d
        else st.doc_data) u = some d0 → d0.url = u
  split
  · rw [dictGet_dictSet]
    by_cases hu : u = d.url
    · rw [if_pos hu]
      intro hsome
      rw [hu]
      exact congrArg SearchDoc.url (Option.some_injective _ hsome).symm
    · rw [if_neg hu]
      exact hst u d0
  · split
    · rw [dictGet_dictSet]
      by_cases hu : u = d.url
      · rw [if_pos hu]
        intro hsome
        rw [hu]
        exact congrArg SearchDoc.url (Option.some_injective _ hsome).symm
      · rw [if_neg hu]
        exact hst u d0
    · exact hst u d0

lemma fuseList_docdata_url (src : String) :
    ∀ (l : List SearchDoc) (st : FuseState) (r : Nat),
      (∀ u d0, dictGet st.doc_data u = some d0 → d0.url = u) →
      ∀ u d0, dictGet (fuseList st src r l).doc_data u = some d0 → d0.url = u := by
  intro l
  induction l with
  | nil => intro st r hst; exact hst
  | cons d l' ih =>
    intro st r hst
    exact ih _ _ (fuseStep_docdata_url st d r src hst)

/-! ### Stable descending sort lemmas -/

lemma mem_insertByScore (score : String → ℚ) (u v : String) :
    ∀ acc : List String, (v ∈ insertByScore score u acc ↔ v = u ∨ v ∈ acc) := by
  intro acc
  induction acc with
  | nil => simp [insertByScore]
  | cons w ws ih =>
    by_cases h : score u ≤ score w
    · simp only [insertByScore, if_pos h, List.mem_cons, ih, List.mem_cons] <;> tauto
    · simp only [insertByScore, if_neg h, List.mem_cons] <;> tauto

lemma mem_sortByScoreDesc (score : String → ℚ) (l : List String) (v : String) :
    v ∈ sortByScoreDesc score l ↔ v ∈ l := by
  have aux : ∀ (l acc : List String),
      (v ∈ l.foldl (fun acc u => insertByScore score u acc) acc
        ↔ v ∈ acc ∨ v ∈ l) := by
    intro l
    induction l with
    | nil => intro acc; simp
    | cons u l' ih =>
      intro acc
      rw [List.foldl_cons, ih, mem_insertByScore, List.mem_cons]
      tauto
  rw [sortByScoreDesc, aux]
  simp

lemma insertByScore_congr (f g : String → ℚ) (u : String) (hu : f u = g u) :
    ∀ acc : List String, (∀ v ∈ acc, f v = g v) →
      insertByScore f u acc = insertByScore g u acc := by
  intro acc
  induction acc with
  | nil => intro _; rfl
  | cons w ws ih =>
    intro hacc
    have hw : f w = g w := hacc w (List.mem_cons_self w ws)
    by_cases h : f u ≤ f w
    · rw [insertByScore, insertByScore, if_pos h, if_pos (by rw [← hu, ← hw]; exact h)]
      rw [ih (fun v hv => hacc v (List.mem_cons_of_mem w hv))]
    · rw [insertByScore, insertByScore, if_neg h, if_neg (by rw [← hu, ← hw]; exact h)]

lemma sortByScoreDesc_congr (f g : String → ℚ) (l : List String)
    (h : ∀ v ∈ l, f v = g v) : sortByScoreDesc f l = sortByScoreDesc g l := by
  have aux : ∀ (l acc : List String), (∀ v ∈ l, f v = g v) → (∀ v ∈ acc, f v = g v) →
      l.foldl (fun acc u => insertByScore f u acc) acc
        = l.foldl (fun acc u => insertByScore g u acc) acc := by
    intro l
    induction l with
    | nil => intro acc _ _; rfl
    | cons u l' ih =>
      intro acc hl hacc
      rw [List.foldl_cons, List.foldl_cons]
      have hu : f u = g u := hl u (List.mem_cons_self u l')
      rw [insertByScore_congr f g u hu acc hacc]
      refine ih _ (fun v hv => hl v (List.mem_cons_of_mem u hv)) ?_
      intro v hv
      rcases (mem_insertByScore g u v acc).mp hv with rfl | hv
      · exact hu
      · exact hacc v hv
  exact aux l [] h (by intro v hv; simp at hv)

/-! ### Assembly of the fusion characterisation -/

lemma dictGet_nil {α : Type} (k : String) : dictGet ([] : List (String × α)) k = none := rfl

/-- The provenance tag the specification prescribes. -/
def rrfSpecSource (bm vec : List SearchDoc) (u : String) : String :=
  if u ∈ docUrls bm ∧ u ∈ docUrls vec then "both"
  else if u ∈ docUrls bm then "bm25" else "vector"

lemma mem_rrfKeys (bm vec : List SearchDoc) (u : String) :
    u ∈ rrfKeys bm vec ↔ u ∈ docUrls bm ∨ u ∈ docUrls vec := by
  simp only [rrfKeys, List.mem_append, List.mem_filter, Bool.not_eq_true']
  constructor
  · rintro (h | ⟨h, -⟩)
    · exact Or.inl h
    · exact Or.inr h
  · rintro (h | h)
    · exact Or.inl h
    · by_cases hb : u ∈ docUrls bm
      · exact Or.inl hb
      · refine Or.inr ⟨h, ?_⟩
        simpa using hb

lemma hybridFuseState_hybrid (bm vec : List SearchDoc) :
    hybridFuseState bm vec "hybrid"
      = fuseList (fuseList ⟨[], [], []⟩ "bm25" 0 bm) "vector" 0 vec := by
  rw [hybridFuseState]
  rw [if_pos (Or.inr rfl), if_pos (Or.inr rfl)]

lemma hybrid_rrf_char (bm vec : List SearchDoc)
    (hb : (docUrls bm).Nodup) (hv : (docUrls vec).Nodup) (u : String) :
    dictGet (hybridFuseState bm vec "hybrid").rrf_scores u
      = if u ∈ rrfKeys bm vec then some (rrfSpecScore bm vec u) else none := by
  rw [hybridFuseState_hybrid]
  by_cases hbm : u ∈ docUrls bm <;> by_cases hvc : u ∈ docUrls vec
  · rw [fuseList_rrf_mem "vector" vec _ 0 u hv hvc,
      fuseList_rrf_mem "bm25" bm _ 0 u hb hbm,
      if_pos ((mem_rrfKeys bm vec u).mpr (Or.inl hbm)),
      rrfSpecScore, if_pos hbm, if_pos hvc]
    show some (((some ((dictGet (⟨[], [], []⟩ : FuseState).rrf_scores u).getD 0
        + 1 / ((RRF_K : ℚ) + ((0 + (docUrls bm).indexOf u : Nat) : ℚ) + 1))).getD 0)
        + 1 / ((RRF_K : ℚ) + ((0 + (docUrls vec).indexOf u : Nat) : ℚ) + 1)) = _
    simp only [dictGet_nil, Option.getD_none, Option.getD_some, RRF_K]
    congr 1
    push_cast
    ring
  · rw [fuseList_rrf_not_mem "vector" vec _ 0 u hvc,
      fuseList_rrf_mem "bm25" bm _ 0 u hb hbm,
      if_pos ((mem_rrfKeys bm vec u).mpr (Or.inl hbm)),
      rrfSpecScore, if_pos hbm, if_neg hvc]
    simp only [dictGet_nil, Option.getD_none, RRF_K]
    congr 1
    push_cast
    ring
  · rw [fuseList_rrf_mem "vector" vec _ 0 u hv hvc,
      fuseList_rrf_not_mem "bm25" bm _ 0 u hbm,
      if_pos ((mem_rrfKeys bm vec u).mpr (Or.inr hvc)),
      rrfSpecScore, if_neg hbm, if_pos hvc]
    simp only [dictGet_nil, Option.getD_none, RRF_K]
    congr 1
    push_cast
    ring
  · rw [fuseList_rrf_not_mem "vector" vec _ 0 u hvc,
      fuseList_rrf_not_mem "bm25" bm _ 0 u hbm,
      if_neg (fun hc => by
        rcases (mem_rrfKeys bm vec u).mp hc with h | h
        · exact hbm h
        · exact hvc h)]
    rfl

lemma hybrid_sources_char (bm vec : List SearchDoc)
    (hb : (docUrls bm).Nodup) (hv : (docUrls vec).Nodup) (u : String)
    (hu : u ∈ rrfKeys bm vec) :
    dictGet (hybridFuseState bm vec "hybrid").doc_sources u
      = some (if u ∈ docUrls bm then
          (if u ∈ docUrls vec then ["bm25", "vector"] else ["bm25"])
          else ["vector"]) := by
  rw [hybridFuseState_hybrid]
  by_cases hbm : u ∈ docUrls bm <;> by_cases hvc : u ∈ docUrls vec
  · rw [fuseList_sources_mem "vector" vec _ 0 u hv hvc,
      fuseList_sources_mem "bm25" bm _ 0 u hb hbm,
      if_pos hbm, if_pos hvc]
    rfl
  · rw [fuseList_sources_not_mem "vector" vec _ 0 u hvc,
      fuseList_sources_mem "bm25" bm _ 0 u hb hbm,
      if_pos hbm, if_neg hvc]
    rfl
  · rw [fuseList_sources_mem "vector" vec _ 0 u hv hvc,
      fuseList_sources_not_mem "bm25" bm _ 0 u hbm,
      if_neg hbm]
    rfl
  · exact absurd ((mem_rrfKeys bm vec u).mp hu)
      (by rintro (h | h) <;> [exact hbm h; exact hvc h])

lemma hybrid_keys (bm vec : List SearchDoc)
    (hb : (docUrls bm).Nodup) (hv : (docUrls vec).Nodup) :
    dictKeys (hybridFuseState bm vec "hybrid").rrf_scores = rrfKeys bm vec := by
  rw [hybridFuseState_hybrid,
    fuseList_rrf_keys "vector" vec _ 0 hv,
    fuseList_rrf_keys "bm25" bm _ 0 hb]
  have h0 : dictKeys (⟨[], [], []⟩ : FuseState).rrf_scores = ([] : List String) := rfl
  rw [h0, List.nil_append]
  have h1 : (docUrls bm).filter (fun u => !([] : List String).contains u) = docUrls bm := by
    simp
  rw [h1, rrfKeys]

lemma hybrid_docdata (bm vec : List SearchDoc) (u : String)
    (hu : u ∈ rrfKeys bm vec) :
    ((dictGet (hybridFuseState bm vec "hybrid").doc_data u).getD ⟨"", "", ""⟩).url
      = u := by
  rw [hybridFuseState_hybrid]
  have hempty : ∀ u' d0, dictGet (⟨[], [], []⟩ : FuseState).doc_data u' = some d0
      → d0.url = u' := by
    intro u' d0 h
    exact absurd h (by simp [dictGet])
  have hsome : (dictGet (fuseList (fuseList ⟨[], [], []⟩ "bm25" 0 bm)
      "vector" 0 vec).doc_data u).isSome := by
    rcases (mem_rrfKeys bm vec u).mp hu with h | h
    · exact fuseList_docdata_isSome "vector" vec _ 0 u
        (Or.inr (fuseList_docdata_isSome "bm25" bm _ 0 u (Or.inl h)))
    · exact fuseList_docdata_isSome "vector" vec _ 0 u (Or.inl h)
  obtain ⟨dd, hdd⟩ := Option.isSome_iff_exists.mp hsome
  have hurl : dd.url = u :=
    fuseList_docdata_url "vector" vec _ 0
      (fuseList_docdata_url "bm25" bm _ 0 hempty) u dd hdd
  rw [hdd, Option.getD_some, hurl]

/-! ### The specification's concrete RRF example: lexical ranks [A, B, C],
vector ranks [B, A] -/

def exDocA : SearchDoc := ⟨"A", "A", "textA"⟩

def exDocB : SearchDoc := ⟨"B", "B", "textB"⟩

def exDocC : SearchDoc := ⟨"C", "C", "textC"⟩

def exBm : List SearchDoc := [exDocA, exDocB, exDocC]

def exVec : List SearchDoc := [exDocB, exDocA]

/-- The fusion state after both accumulation passes on the example. -/
def exState : FuseState :=
  ⟨[("A", 1/61 + 1/62), ("B", 1/62 + 1/61), ("C", (1 : ℚ)/63)],
   [("A", exDocA), ("B", exDocB), ("C", exDocC)],
   [("A", ["bm25", "vector"]), ("B", ["bm25", "vector"]), ("C", ["bm25"])]⟩

lemma exFuse_bm : fuseList (⟨[], [], []⟩ : FuseState) "bm25" 0 exBm
    = ⟨[("A", (1 : ℚ)/61), ("B", 1/62), ("C", 1/63)],
       [("A", exDocA), ("B", exDocB), ("C", exDocC)],
       [("A", ["bm25"]), ("B", ["bm25"]), ("C", ["bm25"])]⟩ := by
  simp [fuseList, fuseStep, dictSet, dictGet, exBm, exDocA, exDocB, exDocC, RRF_K]
  norm_num

lemma exFuse_vec : fuseList (⟨[("A", (1 : ℚ)/61), ("B", 1/62), ("C", 1/63)],
       [("A", exDocA), ("B", exDocB), ("C", exDocC)],
       [("A", ["bm25"]), ("B", ["bm25"]), ("C", ["bm25"])]⟩ : FuseState)
      "vector" 0 exVec = exState := by
  simp [fuseList, fuseStep, dictSet, dictGet, exVec, exState, exDocA, exDocB, exDocC,
    RRF_K]
  norm_num

lemma exState_eval : hybridFuseState exBm exVec "hybrid" = exState := by
  rw [hybridFuseState_hybrid, exFuse_bm, exFuse_vec]

lemma exSort : sortByScoreDesc (fun u => (dictGet exState.rrf_scores u).getD 0)
    (dictKeys exState.rrf_scores) = ["A", "B", "C"] := by
  simp [sortByScoreDesc, insertByScore, dictGet, dictKeys, exState]
  norm_num [insertByScore]
  simp
  norm_num

lemma map_url_built (st : FuseState) (urls : List String)
    (h : ∀ u ∈ urls, ((dictGet st.doc_data u).getD ⟨"", "", ""⟩).url = u) :
    (urls.map (fun u =>
        let d := (dictGet st.doc_data u).getD ⟨"", "", ""⟩
        let srcs := (dictGet st.doc_sources u).getD []
        (⟨d.title, d.url, d.text,
          if 1 < srcs.length then "both" else srcs.headD ""⟩ : ResultDoc))).map
      (fun rd => rd.url) = urls := by
  induction urls with
  | nil => rfl
  | cons u us ih =>
    simp only [List.map_cons]
    rw [ih (fun v hv => h v (List.mem_cons_of_mem u hv))]
    congr 1
    exact h u (List.mem_cons_self u us)

/-- C1: for every query outcome (arbitrary contributing ranked lists with
per-list distinct identifiers) and every `top_k`, `hybrid_search` with the
hybrid strategy (i) returns exactly the identifiers obtained by stably
sorting the accumulated identifiers by score descending (ties keeping dict
insertion order: BM25 urls first, then new vector urls) and truncating to
`top_k`; (ii) assigns each identifier the accumulated score
`Σ 1/(60 + r + 1)` over the lists containing it, `r` its 0-based rank
there; (iii) tags each returned result `"both"` exactly when its
identifier occurs in both lists, else with the single contributing list's
name; and (iv) on the concrete example (lexical `[A, B, C]`, vector
`[B, A]`) scores A and B at `1/61 + 1/62`, C at `1/63`, and returns
`[A, B, C]` with C ranked below both, tagged both/both/bm25. -/
theorem hybrid_search_rrf_fusion (bm vec : List SearchDoc) (top_k : Nat)
    (hb : (docUrls bm).Nodup) (hv : (docUrls vec).Nodup) :
    ((hybrid_search bm vec top_k "hybrid").map (fun rd => rd.url)
        = (sortByScoreDesc (rrfSpecScore bm vec) (rrfKeys bm vec)).take top_k)
    ∧ (∀ u, dictGet (hybridFuseState bm vec "hybrid").rrf_scores u
        = if u ∈ rrfKeys bm vec then some (rrfSpecScore bm vec u) else none)
    ∧ (∀ rd ∈ hybrid_search bm vec top_k "hybrid",
        rd.source = rrfSpecSource bm vec rd.url)
    ∧ dictGet (hybridFuseState exBm exVec "hybrid").rrf_scores "A"
        = some (1/61 + 1/62)
    ∧ dictGet (hybridFuseState exBm exVec "hybrid").rrf_scores "B"
        = some (1/62 + 1/61)
    ∧ dictGet (hybridFuseState exBm exVec "hybrid").rrf_scores "C" = some (1/63)
    ∧ (hybrid_search exBm exVec 3 "hybrid").map (fun rd => rd.url) = ["A", "B", "C"]
    ∧ (hybrid_search exBm exVec 3 "hybrid").map (fun rd => rd.source)
        = ["both", "both", "bm25"] := by
  have hkeys := hybrid_keys bm vec hb hv
  have hchar := hybrid_rrf_char bm vec hb hv
  have hscore_eq : ∀ u ∈ rrfKeys bm vec,
      (fun u => (dictGet (hybridFuseState bm vec "hybrid").rrf_scores u).getD 0) u
        = rrfSpecScore bm vec u := by
    intro u hu
    show (dictGet (hybridFuseState bm vec "hybrid").rrf_scores u).getD 0 = _
    rw [hchar u, if_pos hu, Option.getD_some]
  have hsorted_eq : sortByScoreDesc
        (fun u => (dictGet (hybridFuseState bm vec "hybrid").rrf_scores u).getD 0)
        (dictKeys (hybridFuseState bm vec "hybrid").rrf_scores)
      = sortByScoreDesc (rrfSpecScore bm vec) (rrfKeys bm vec) := by
    rw [hkeys]
    exact sortByScoreDesc_congr _ _ _ hscore_eq
  have hmem_sorted : ∀ u ∈ (sortByScoreDesc (rrfSpecScore bm vec)
        (rrfKeys bm vec)).take top_k, u ∈ rrfKeys bm vec := by
    intro u hu
    exact (mem_sortByScoreDesc _ _ u).mp ((List.take_sublist top_k _).subset hu)
  refine ⟨?_, hchar, ?_, ?_, ?_, ?_, ?_, ?_⟩
  · rw [hybrid_search, hsorted_eq]
    exact map_url_built _ _
      (fun u hu => hybrid_docdata bm vec u (hmem_sorted u hu))
  · intro rd hrd
    rw [hybrid_search, hsorted_eq, List.mem_map] at hrd
    obtain ⟨u, hu, rfl⟩ := hrd
    have huk : u ∈ rrfKeys bm vec := hmem_sorted u hu
    have hsrc := hybrid_sources_char bm vec hb hv u huk
    have hurl := hybrid_docdata bm vec u huk
    simp only [hsrc, Option.getD_some, rrfSpecSource, hurl]
    by_cases hbm : u ∈ docUrls bm <;> by_cases hvc : u ∈ docUrls vec
    · simp [hbm, hvc]
    · simp [hbm, hvc]
    · simp [hbm, hvc]
    · exact absurd ((mem_rrfKeys bm vec u).mp huk)
        (by rintro (h | h) <;> [exact hbm h; exact hvc h])
  · rw [exState_eval]
    simp [dictGet, exState]
  · rw [exState_eval]
    simp [dictGet, exState]
  · rw [exState_eval]
    simp [dictGet, exState]
  · rw [hybrid_search, exState_eval, exSort]
    simp [dictGet, dictKeys, exState, exDocA, exDocB, exDocC]
  · rw [hybrid_search, exState_eval, exSort]
    simp [dictGet, dictKeys, exState, exDocA, exDocB, exDocC]

/-- C1 witness: the fusion theorem applied to the specification's concrete
example, its per-list distinctness hypotheses discharged by computation. -/
theorem hybrid_search_rrf_fusion_witness :
    (hybrid_search exBm exVec 3 "hybrid").map (fun rd => rd.url)
      = (sortByScoreDesc (rrfSpecScore exBm exVec) (rrfKeys exBm exVec)).take 3
    ∧ (hybrid_search exBm exVec 3 "hybrid").map (fun rd => rd.url)
      = ["A", "B", "C"] :=
  ⟨(hybrid_search_rrf_fusion exBm exVec 3 (by decide) (by decide)).1,
   (hybrid_search_rrf_fusion exBm exVec 3 (by decide)
      (by decide)).2.2.2.2.2.2.1⟩

/-! ## Search degradation (`src/indexer.py`, `BaseHybridIndexer.search` /
`vector_search`) -/

/-- Metadata of one Chroma query hit; `title` / `url` may be absent
(`metadata.get('title', 'Unknown')`, `metadata.get('url', '')`). -/
structure ChromaMeta where
  title : Option String
  url : Option String
deriving DecidableEq, Repr

/-- The indexer state the two searches read: `self.bm25` (absent until an
index is built; when present, a ranked-retrieval capability returning the
top documents) and `self.collection` (absent until built; when present, a
query capability that either raises — `Except.error` — or returns the
matched document texts with their metadata). -/
structure IndexerState where
  bm25 : Option (String → Nat → List SearchDoc)
  collection : Option (String → Nat → Except String (List (String × ChromaMeta)))

/-- `BaseHybridIndexer.search` (lines 61-78): `[]` when no BM25 index is
built, otherwise the top documents (`docs if docs else []` is the
identity). -/
def bm25_search (s : IndexerState) (q : String) (top_k : Nat) : List SearchDoc :=
  match s.bm25 with
  | none => []
  | some f => f q top_k

/-- `BaseHybridIndexer.vector_search` (lines 80-114): `[]` when no
collection exists; the query call is wrapped in try/except and any raised
exception is caught and turned into `[]`; a successful reply is converted
with the `'Unknown'` / `''` metadata defaults. -/
def vector_search (s : IndexerState) (q : String) (top_k : Nat) : List SearchDoc :=
  match s.collection with
  | none => []
  | some qf =>
    match qf q top_k with
    | Except.error _ => []
    | Except.ok pairs =>
        pairs.map (fun p => ⟨p.2.title.getD "Unknown", p.2.url.getD "", p.1⟩)

/-- `BaseHybridIndexer.hybrid_search` at the indexer level: fuse the two
per-source result lists. -/
def state_hybrid_search (s : IndexerState) (q : String) (top_k : Nat)
    (strategy : String) : List ResultDoc :=
  hybrid_search (bm25_search s q top_k) (vector_search s q top_k) top_k strategy

lemma hybrid_search_nil_nil (top_k : Nat) (strategy : String) :
    hybrid_search [] [] top_k strategy = [] := by
  rw [hybrid_search, hybridFuseState]
  by_cases h1 : strategy = "keyword" ∨ strategy = "hybrid" <;>
    by_cases h2 : strategy = "semantic" ∨ strategy = "hybrid" <;>
      simp [h1, h2, fuseList, sortByScoreDesc, dictKeys]

/-- C8: an unbuilt lexical index yields `[]` rather than raising, an
unbuilt vector collection yields `[]`, an exception raised by the
vector-store query is caught per-call and treated as zero results from
that source, and hybrid fusion therefore degrades to the lexical source
alone (or to `[]` when neither source is available). -/
theorem search_degrades_to_empty (s : IndexerState) (q : String) (top_k : Nat)
    (qf : String → Nat → Except String (List (String × ChromaMeta)))
    (e : String) :
    (s.bm25 = none → bm25_search s q top_k = [])
    ∧ (s.collection = none → vector_search s q top_k = [])
    ∧ (s.collection = some qf → qf q top_k = Except.error e →
        vector_search s q top_k = []
        ∧ state_hybrid_search s q top_k "hybrid"
            = hybrid_search (bm25_search s q top_k) [] top_k "hybrid")
    ∧ (s.bm25 = none → s.collection = none →
        state_hybrid_search s q top_k "hybrid" = []) := by
  refine ⟨?_, ?_, ?_, ?_⟩
  · intro h
    rw [bm25_search, h]
  · intro h
    rw [vector_search, h]
  · intro hcol herr
    have hvs : vector_search s q top_k = [] := by
      rw [vector_search, hcol]
      show (match qf q top_k with
        | Except.error _ => ([] : List SearchDoc)
        | Except.ok pairs =>
            pairs.map (fun p => ⟨p.2.title.getD "Unknown", p.2.url.getD "", p.1⟩)) = []
      rw [herr]
    exact ⟨hvs, by rw [state_hybrid_search, hvs]⟩
  · intro hbm hcol
    rw [state_hybrid_search, bm25_search, hbm, vector_search, hcol,
      hybrid_search_nil_nil]

/-- C8 witness: the degradation theorem applied to a concrete state whose
vector query raises, and to a concrete state with neither index built. -/
theorem search_degrades_to_empty_witness :
    vector_search ⟨none, some (fun _ _ => Except.error "boom")⟩ "q" 3 = []
    ∧ state_hybrid_search ⟨none, some (fun _ _ => Except.error "boom")⟩ "q" 3
        "hybrid"
      = hybrid_search (bm25_search ⟨none, some (fun _ _ => Except.error "boom")⟩
          "q" 3) [] 3 "hybrid"
    ∧ state_hybrid_search ⟨none, none⟩ "q" 3 "hybrid" = [] :=
  ⟨((search_degrades_to_empty ⟨none, some (fun _ _ => Except.error "boom")⟩ "q" 3
      (fun _ _ => Except.error "boom") "boom").2.2.1 rfl rfl).1,
   ((search_degrades_to_empty ⟨none, some (fun _ _ => Except.error "boom")⟩ "q" 3
      (fun _ _ => Except.error "boom") "boom").2.2.1 rfl rfl).2,
   (search_degrades_to_empty ⟨none, none⟩ "q" 3
      (fun _ _ => Except.error "boom") "boom").2.2.2 rfl rfl⟩

end LocalSearch
